import Mathlib

/-!
Verification of the Rimu List Engine (`src/rimu/lists.ts`).

The List Engine source is embedded directly.  Its collaborators
(`io.ts`, `utils.ts`, `delimitedblocks.ts`, `lineblocks.ts`) are not part
of the source tree; they are modelled from the specification and marked
as such in their doc comments.  The three list-item regular expressions
of `lists.ts` are implemented as explicit backtracking matchers with
JavaScript `RegExp.exec` semantics (leftmost-greedy alternatives,
backtracking on failure).
-/

namespace Rimu

/-- JavaScript `\s` on line content (lines are split on newlines, so the
newline cases never occur inside a line; they are kept for fidelity).
Exotic Unicode whitespace is not modelled. -/
def isJsSpace (c : Char) : Bool :=
  c = ' ' ∨ c = '\t' ∨ c = '\x0b' ∨ c = '\x0c' ∨ c = '\r' ∨ c = '\n'

/-- First-character test (JavaScript `line[0] === c`: false for the empty
string, whose index 0 is `undefined`). -/
def headIs (line : String) (c : Char) : Bool :=
  match line.data with
  | c0 :: _ => c0 = c
  | [] => false

/-- Modelled from the spec: `io.ts` is not under `src/`.  §3: the Reader
owns the ordered sequence of source lines and a current line index
("cursor"); it supports peek, end-of-input test, advance, rewrite of the
current line in place, and skipping blank lines. -/
structure Reader where
  lines : List String
  pos : Nat
deriving DecidableEq, Repr

/-- Modelled from the spec: end-of-input test of the Reader. -/
def Reader.eof (r : Reader) : Bool := decide (r.lines.length ≤ r.pos)

/-- Modelled from the spec: peek the current line; `none` past the end
(JavaScript `undefined`). -/
def Reader.cursor (r : Reader) : Option String := r.lines[r.pos]?

/-- Modelled from the spec: rewrite the current line in place (used to
drop escape backslashes). -/
def Reader.setCursor (r : Reader) (s : String) : Reader :=
  ⟨r.lines.set r.pos s, r.pos⟩

/-- Modelled from the spec: advance the cursor one line. -/
def Reader.next (r : Reader) : Reader := ⟨r.lines, r.pos + 1⟩

/-- Number of leading blank lines of a line list. -/
def countBlank : List String → Nat
  | [] => 0
  | l :: ls => if l = "" then countBlank ls + 1 else 0

/-- Modelled from the spec: skip consecutive blank lines (stops at the
first non-blank line or at end of input). -/
def Reader.skipBlankLines (r : Reader) : Reader :=
  ⟨r.lines, r.pos + countBlank (r.lines.drop r.pos)⟩

/-- Modelled from the spec: §3: the Writer owns an accumulating sequence
of text fragments; append and stringify (fragments are concatenated). -/
abbrev Writer := List String

/-! ## The three list-item regular expressions

`defs` in `lists.ts` recognises items with
unordered `/^\\?\s*(-|\+|\*{1,4})\s+(.*)$/`,
ordered `/^\\?\s*(?:\d*)(\.{1,4})\s+(.*)$/` and
definition `/^\\?\s*(.*[^:])(:{2,4})(|\s+.*)$/`.
Each matcher below returns the JavaScript capture array
(`match[0]` is the whole line, since the patterns are anchored at both
ends) or `none` when `exec` returns `null`. -/

/-- Body of the unordered-list pattern after `^\\?`:
`\s*(-|\+|\*{1,4})\s+(.*)$`.  Returns (bullet, item text).
Backtracking note: `\s*` is maximal (giving a space back would place a
space where a bullet is required), the star run is maximal and a run of
more than four stars fails every shorter alternative because the
character after the alternative is again a star, not whitespace. -/
def ulBody (cs : List Char) : Option (List Char × List Char) :=
  let cs1 := cs.dropWhile isJsSpace
  match cs1 with
  | '-' :: rest =>
    if isJsSpace (rest.headD 'x') then some (['-'], rest.dropWhile isJsSpace) else none
  | '+' :: rest =>
    if isJsSpace (rest.headD 'x') then some (['+'], rest.dropWhile isJsSpace) else none
  | '*' :: _ =>
    let stars := cs1.takeWhile (· = '*')
    let rest := cs1.dropWhile (· = '*')
    if stars.length ≤ 4 ∧ isJsSpace (rest.headD 'x') then
      some (stars, rest.dropWhile isJsSpace)
    else none
  | _ => none

/-- `exec` of the unordered-list pattern `/^\\?\s*(-|\+|\*{1,4})\s+(.*)$/`.
When the line starts with a backslash the optional `\\?` must consume it:
with `\\?` empty, neither `\s*` nor the bullet alternatives can match the
backslash character, so no backtracked match exists. -/
def execUnordered (line : String) : Option (List String) :=
  let cs := line.data
  let body := if cs.headD 'x' = '\\' then ulBody cs.tail else ulBody cs
  match body with
  | some (bullet, text) => some [line, String.mk bullet, String.mk text]
  | none => none

/-- Body of the ordered-list pattern after `^\\?`:
`\s*(?:\d*)(\.{1,4})\s+(.*)$`.  Returns (dots, item text).
Backtracking note: shortening `\s*` or `\d*` places a space or a digit
where `\.{1,4}` requires a dot, and a dot run longer than four fails
every alternative because the following character is again a dot. -/
def olBody (cs : List Char) : Option (List Char × List Char) :=
  let cs1 := (cs.dropWhile isJsSpace).dropWhile (·.isDigit)
  let dots := cs1.takeWhile (· = '.')
  let rest := cs1.dropWhile (· = '.')
  if 1 ≤ dots.length ∧ dots.length ≤ 4 ∧ isJsSpace (rest.headD 'x') then
    some (dots, rest.dropWhile isJsSpace)
  else none

/-- `exec` of the ordered-list pattern `/^\\?\s*(?:\d*)(\.{1,4})\s+(.*)$/`.
As for the unordered pattern, a leading backslash can only be consumed by
`\\?` itself. -/
def execOrdered (line : String) : Option (List String) :=
  let cs := line.data
  let body := if cs.headD 'x' = '\\' then olBody cs.tail else olBody cs
  match body with
  | some (dots, text) => some [line, String.mk dots, String.mk text]
  | none => none

/-- `(:{2,4})(|\s+.*)$` with JavaScript backtracking: colon counts are
tried longest first (at most four, at most the length of the colon run);
the third group prefers the empty alternative, which requires end of
line, and otherwise requires leading whitespace.  Returns (colons,
group-3 text). -/
def dlTryColons (rest : List Char) (crun : Nat) : Nat → Option (List Char × List Char)
  | 0 => none
  | k + 1 =>
    if k + 1 < 2 ∨ crun < k + 1 then dlTryColons rest crun k
    else
      let rest2 := rest.drop (k + 1)
      if rest2.isEmpty then some (rest.take (k + 1), rest2)
      else if isJsSpace (rest2.headD 'x') then some (rest.take (k + 1), rest2)
      else dlTryColons rest crun k

/-- `(.*[^:])(:{2,4})(|\s+.*)$` with JavaScript backtracking: the first
group (term) is tried longest first and must end in a non-colon
character.  Returns (term, colons, group-3 text). -/
def dlTryTerm (cs : List Char) : Nat → Option (List Char × List Char × List Char)
  | 0 => none
  | t + 1 =>
    let term := cs.take (t + 1)
    if term.getLastD ':' ≠ ':' then
      let rest := cs.drop (t + 1)
      match dlTryColons rest (rest.takeWhile (· = ':')).length 4 with
      | some (colons, g3) => some (term, colons, g3)
      | none => dlTryTerm cs t
    else dlTryTerm cs t

/-- `\s*(.*[^:])(:{2,4})(|\s+.*)$` with JavaScript backtracking: `\s*`
is tried longest first, but on failure gives whitespace back to the
first group (so e.g. a term consisting only of whitespace is possible). -/
def dlTryWs (cs : List Char) : Nat → Option (List Char × List Char × List Char)
  | 0 => dlTryTerm cs cs.length
  | w + 1 =>
    match dlTryTerm (cs.drop (w + 1)) (cs.drop (w + 1)).length with
    | some r => some r
    | none => dlTryWs cs w

/-- Body of the definition-list pattern after `^\\?`. -/
def dlBody (cs : List Char) : Option (List Char × List Char × List Char) :=
  dlTryWs cs (cs.takeWhile isJsSpace).length

/-- `exec` of the definition-list pattern `/^\\?\s*(.*[^:])(:{2,4})(|\s+.*)$/`.
`\\?` greedily consumes a leading backslash; if the rest then fails, the
engine retries with `\\?` empty, in which case the first group may
consume the backslash itself. -/
def execDefinition (line : String) : Option (List String) :=
  let cs := line.data
  let body :=
    if cs.headD 'x' = '\\' then
      match dlBody cs.tail with
      | some r => some r
      | none => dlBody cs
    else dlBody cs
  match body with
  | some (term, colons, g3) =>
    some [line, String.mk term, String.mk colons, String.mk g3]
  | none => none

/-! ## Data model of `lists.ts` -/

/-- `interface Definition` of `lists.ts` (the regular expression field is
the exec function of the pattern; `match` and `def` are reserved words in
Lean, hence `rmatch`/`defn` throughout). -/
structure Definition where
  rmatch : String → Option (List String)
  listOpenTag : String
  listCloseTag : String
  itemOpenTag : String
  itemCloseTag : String
  termOpenTag : Option String
  termCloseTag : Option String

/-- The unordered-list entry of `defs` in `lists.ts`. -/
def ulDef : Definition :=
  { rmatch := execUnordered,
    listOpenTag := "<ul>", listCloseTag := "</ul>",
    itemOpenTag := "<li>", itemCloseTag := "</li>",
    termOpenTag := none, termCloseTag := none }

/-- The ordered-list entry of `defs` in `lists.ts`. -/
def olDef : Definition :=
  { rmatch := execOrdered,
    listOpenTag := "<ol>", listCloseTag := "</ol>",
    itemOpenTag := "<li>", itemCloseTag := "</li>",
    termOpenTag := none, termCloseTag := none }

/-- The definition-list entry of `defs` in `lists.ts`. -/
def dlDef : Definition :=
  { rmatch := execDefinition,
    listOpenTag := "<dl>", listCloseTag := "</dl>",
    itemOpenTag := "<dd>", itemCloseTag := "</dd>",
    termOpenTag := some "<dt>", termCloseTag := some "</dt>" }

/-- `defs` of `lists.ts`: unordered, ordered, definition lists, in
priority order. -/
def defs : List Definition := [ulDef, olDef, dlDef]

/-- `interface ItemState` of `lists.ts`: capture array, matched
definition, list ID. -/
structure ItemState where
  rmatch : List String
  defn : Definition
  id : String

/-- Result of `matchItem`: a list item (`ItemState`), or the empty
object `\x7b\x7d` marking an attached delimited block (its `id` field is
JavaScript `undefined`, hence falsy). -/
inductive Matched where
  | item (st : ItemState)
  | attached

/-- The imported modules `delimitedblocks.ts` and `utils.ts` are not
under `src/`; their operations used by the List Engine are collected in
this record so that statements can quantify over their behaviour.
`dbRender` is `delimitedBlocks.render` together with the process-wide
list-ID stack it can observe and mutate (a nested render resets it);
`openMatchTest name line` is `delimitedBlocks.getDefinition(name).openMatch.test(line)`;
`replaceInline` is `utils.replaceInline(text, macros+spans)`. -/
structure Deps where
  dbRender : List String → Reader → Writer → List String × Reader × Writer
  openMatchTest : String → String → Bool
  replaceInline : String → String

/-- First definition in `ds` whose pattern matches the line, with its
capture array (the `for (let def of defs)` loop of `matchItem`). -/
def findMatch : List Definition → String → Option (Definition × List String)
  | [], _ => none
  | d :: ds, line =>
    match d.rmatch line with
    | some m => some (d, m)
    | none => findMatch ds line

/-- Modelled from the spec: `lineblocks.ts` is not under `src/`.  §3:
the pending Block Attributes side-channel; no Block Attributes line
occurs inside a list render, so it is empty here. -/
def blockAttributes : String := ""

/-- Modelled from the spec: `utils.ts` is not under `src/`.
`injectHtmlAttributes` merges pending block attributes into an opening
tag; with no pending attributes the tag is returned unchanged. -/
def injectHtmlAttributes (tag : String) (attrs : String) : String :=
  if attrs = "" then tag else tag.dropRight 1 ++ " " ++ attrs ++ ">"

/-- `matchItem(reader, attachments)` of `lists.ts`: try each list
definition in order; on a match whose first character is a backslash,
drop the backslash from the current line and report no match; otherwise
build the `ItemState` whose `id` is the second-to-last capture group.
With no list match, test the allowed attached Delimited Block open
patterns.  (The `none` cursor case is unreachable: every call site has
checked `eof`; JavaScript would stringify `undefined`, which no pattern
matches, and return `null`.) -/
def matchItem (dep : Deps) (r : Reader) (attachments : List String) :
    Option Matched × Reader :=
  match r.cursor with
  | none => (none, r)
  | some line =>
    match findMatch defs line with
    | some (d, m) =>
      if headIs ((m[0]?).getD "") '\\' then
        (none, r.setCursor (line.drop 1))
      else
        (some (.item ⟨m, d, ((m[m.length - 2]?).getD "")⟩), r)
    | none =>
      if attachments.any (fun name => dep.openMatchTest name line) then
        (some .attached, r)
      else (none, r)

/-- `readToNext(reader, writer)` of `lists.ts`: copy item continuation
lines to the scratch writer until end of input, a blank line, a list
item, or an attached block.  Fuel-indexed (`none` = fuel exhausted; the
loop consumes one line per iteration, so any fuel larger than the number
of remaining lines suffices). -/
def readToNext (dep : Deps) : Nat → Reader → Writer →
    Option (Option Matched × Reader × Writer)
  | 0, _, _ => none
  | fuel + 1, r, w =>
    if r.eof then some (none, r, w)
    else if r.cursor = some "" then
      -- Encountered blank line.
      let r1 := r.next
      if r1.cursor = some "" then
        -- A second blank line terminates the list.
        some (none, r1, w)
      else if r1.eof then some (none, r1, w)
      else
        -- A single blank line separates list item from ensuing text.
        match matchItem dep r1 ["indented"] with
        | (m, r2) => some (m, r2, w)
    else
      match matchItem dep r
        ["comment", "code", "division", "html", "quote", "quote-paragraph"] with
      | (some m, r2) => some (some m, r2, w)
      | (none, r2) =>
        readToNext dep fuel r2.next (w ++ [(r2.cursor).getD "", "\n"])

/-- The global mutable state of a render: the stack of open list IDs
(`ids`), the Reader and the Writer. -/
structure LState where
  ids : List String
  rd : Reader
  wr : Writer
deriving Repr

mutual

/-- `renderList(startItem, reader, writer)` of `lists.ts`: push the list
ID, write the (attribute-injected) list open tag, then loop over the
items. -/
def renderList (dep : Deps) : Nat → ItemState → LState →
    Option (Option ItemState × LState)
  | 0, _, _ => none
  | fuel + 1, st, s =>
    renderListLoop dep fuel st
      ⟨s.ids ++ [st.id],
       s.rd,
       s.wr ++ [injectHtmlAttributes st.defn.listOpenTag blockAttributes]⟩

/-- The `while (true)` loop of `renderList`: render an item; when the
next item is missing or belongs to a different list, write the close
tag, pop the ID stack and return; otherwise continue with the next
item. -/
def renderListLoop (dep : Deps) : Nat → ItemState → LState →
    Option (Option ItemState × LState)
  | 0, _, _ => none
  | fuel + 1, st, s =>
    match renderListItem dep fuel st s with
    | none => none
    | some (next, s1) =>
      match next with
      | none =>
        some (none, ⟨s1.ids.dropLast, s1.rd, s1.wr ++ [st.defn.listCloseTag]⟩)
      | some nx =>
        if nx.id = st.id then renderListLoop dep fuel nx s1
        else
          some (some nx, ⟨s1.ids.dropLast, s1.rd, s1.wr ++ [st.defn.listCloseTag]⟩)

/-- `renderListItem(startItem, reader, writer)` of `lists.ts`: write the
optional term (definition lists have a four-element capture array), the
item open tag, gather the item text into a scratch writer, apply inline
replacement, then dispatch on the next list-related element. -/
def renderListItem (dep : Deps) : Nat → ItemState → LState →
    Option (Option ItemState × LState)
  | 0, _, _ => none
  | fuel + 1, st, s =>
    let d := st.defn
    let m := st.rmatch
    let w0 :=
      if m.length = 4 then
        -- 3 match groups => definition list.
        s.wr ++ [d.termOpenTag.getD "",
                 dep.replaceInline ((m[1]?).getD ""),
                 d.termCloseTag.getD ""]
      else s.wr
    let w1 := w0 ++ [d.itemOpenTag]
    let scratch : Writer := [(m[m.length - 1]?).getD "", "\n"]
    match readToNext dep fuel s.rd.next scratch with
    | none => none
    | some (next, r1, scratch1) =>
      let text := dep.replaceInline (String.join scratch1)
      itemLoop dep fuel d next ⟨s.ids, r1, w1 ++ [text]⟩

/-- The `while (true)` loop of `renderListItem`: no next element closes
the item; a list item with an ID on the stack closes the item and
returns it to the ancestor; a new ID starts a child list; anything else
is an attached delimited block. -/
def itemLoop (dep : Deps) : Nat → Definition → Option Matched → LState →
    Option (Option ItemState × LState)
  | 0, _, _, _ => none
  | fuel + 1, d, next, s =>
    match next with
    | none =>
      -- EOF or non-list related item.
      some (none, ⟨s.ids, s.rd, s.wr ++ [d.itemCloseTag]⟩)
    | some (.item st) =>
      if st.id = "" then
        -- JavaScript falsiness of the empty string (never produced by the
        -- patterns, kept for fidelity): treated as a delimited block.
        renderAttached dep fuel d s
      else if s.ids.contains st.id then
        -- Item belongs to current list or an ancestor list.
        some (some st, ⟨s.ids, s.rd, s.wr ++ [d.itemCloseTag]⟩)
      else
        -- Render new child list.
        match renderList dep fuel st s with
        | none => none
        | some (ret, s1) =>
          some (ret, ⟨s1.ids, s1.rd, s1.wr ++ [d.itemCloseTag]⟩)
    | some .attached => renderAttached dep fuel d s

/-- The delimited-block arm of the `renderListItem` loop: save the list-ID
stack, render the block with an empty stack, restore the saved stack,
skip blank lines, and resume item matching (or close the item at EOF). -/
def renderAttached (dep : Deps) : Nat → Definition → LState →
    Option (Option ItemState × LState)
  | 0, _, _ => none
  | fuel + 1, d, s =>
    -- let savedIds = ids; ids = []
    match dep.dbRender [] s.rd s.wr with
    | (_, r1, w1) =>
      -- ids = savedIds
      let r2 := r1.skipBlankLines
      if r2.eof then some (none, ⟨s.ids, r2, w1 ++ [d.itemCloseTag]⟩)
      else
        match matchItem dep r2 [] with
        | (next, r3) => itemLoop dep fuel d next ⟨s.ids, r3, w1⟩

end

/-- `render(reader, writer)` of `lists.ts`: throw `premature eof` on an
exhausted Reader; return `false` (Reader possibly rewritten by an escape,
global state otherwise untouched) when the current line is no list item;
otherwise reset the ID stack and render the list.  (`matchItem` with no
attachments never returns the attached marker; the arm is kept for
totality and behaves like the no-match arm.) -/
def render (dep : Deps) (fuel : Nat) (s : LState) :
    Option (Except String (Bool × LState)) :=
  if s.rd.eof then some (.error "premature eof")
  else
    match matchItem dep s.rd [] with
    | (some (.item st), r1) =>
      match renderList dep fuel st ⟨[], r1, s.wr⟩ with
      | none => none
      | some (_, s1) => some (.ok (true, s1))
    | (some .attached, r1) => some (.ok (false, ⟨s.ids, r1, s.wr⟩))
    | (none, r1) => some (.ok (false, ⟨s.ids, r1, s.wr⟩))

/-! ## Modelled collaborators (concrete instance) -/

/-- Modelled from the spec: `utils.ts` is not under `src/`.  §4.2: the
Inline Replacer applies macro expansion and span substitution; special
characters are escaped; non-macro, non-span text is left untouched.  The
macro table is empty during a bare list render and quoted/link spans are
not exercised by any statement below, so only special-character escaping
is modelled. -/
def escSpecials : List Char → List Char
  | [] => []
  | c :: cs =>
    (if c = '&' then "&amp;".data
     else if c = '<' then "&lt;".data
     else if c = '>' then "&gt;".data
     else [c]) ++ escSpecials cs

/-- Modelled from the spec: `utils.replaceInline` with macros and spans
enabled (see `escSpecials`). -/
def specReplaceInline (text : String) : String := String.mk (escSpecials text.data)

/-- Modelled from the spec: `delimitedblocks.ts` is not under `src/`.
§4.4 names the delimited block definitions (comment, code, division,
html, quote, paragraph variants, indented) but not their open patterns;
plausible open-delimiter tests are supplied for the names the List
Engine uses. -/
def specOpenMatchTest (name : String) (line : String) : Bool :=
  if name = "comment" then line.data.take 2 == ['/', '*']
  else if name = "code" then line.data.take 2 == ['-', '-']
  else if name = "division" then line.data.take 2 == ['.', '.']
  else if name = "html" then headIs line '<'
  else if name = "quote" then line.data.take 2 == ['"', '"']
  else if name = "quote-paragraph" then headIs line '>'
  else if name = "indented" then line ≠ "" ∧ isJsSpace (line.data.headD 'x')
  else false

/-- Lines of a delimited block: up to and including its terminating blank
line (or end of input). -/
def consumeLines : List String → Writer → Nat × Writer
  | [], w => (0, w)
  | l :: ls, w =>
    if l = "" then (1, w)
    else
      match consumeLines ls (w ++ [specReplaceInline l ++ "\n"]) with
      | (n, w1) => (n + 1, w1)

/-- Modelled from the spec: `delimitedBlocks.render` (not under `src/`).
§4.4: it consumes the opening line and the block content up to the
per-definition termination (modelled: a blank line or EOF) and renders
the content (modelled: escaped, one fragment per line); the process-wide
list-ID stack is left as found (a nested list render inside the block
would leave it empty, which the List Engine must not rely on — its
caller restores the stack either way). -/
def specDbRender (ids : List String) (r : Reader) (w : Writer) :
    List String × Reader × Writer :=
  let w0 := w ++ [specReplaceInline ((r.cursor).getD "") ++ "\n"]
  match consumeLines (r.lines.drop (r.pos + 1)) w0 with
  | (n, w1) => (ids, ⟨r.lines, r.pos + 1 + n⟩, w1)

/-- The concrete collaborator record built from the spec-modelled parts. -/
def specDeps : Deps :=
  { dbRender := specDbRender,
    openMatchTest := specOpenMatchTest,
    replaceInline := specReplaceInline }

/-- Modelled from the spec: the Block Dispatcher and the paragraph
fallback (`api.ts` / `delimitedblocks.ts`) are not under `src/`.  §4.6
and §8: a run of non-blank lines matched by no other block construct is
wrapped by the paragraph catch-all in p tags with inline replacement
applied. -/
def paragraphFallback (dep : Deps) (r : Reader) (w : Writer) : Reader × Writer :=
  let ls := (r.lines.drop r.pos).takeWhile (fun l => l ≠ "")
  (⟨r.lines, r.pos + ls.length⟩,
   w ++ ["<p>" ++ dep.replaceInline (String.intercalate "\n" ls) ++ "</p>"])

/-! ## Writer fragment classification -/

/-- Fragment is the open tag of one of the three list kinds. -/
def isListOpenTag (f : String) : Bool := f = "<ul>" ∨ f = "<ol>" ∨ f = "<dl>"

/-- Fragment is the close tag of one of the three list kinds. -/
def isListCloseTag (f : String) : Bool := f = "</ul>" ∨ f = "</ol>" ∨ f = "</dl>"

/-- Fragment is the item open tag of one of the three list kinds. -/
def isItemOpenTag (f : String) : Bool := f = "<li>" ∨ f = "<dd>"

/-- Fragment is the item close tag of one of the three list kinds. -/
def isItemCloseTag (f : String) : Bool := f = "</li>" ∨ f = "</dd>"

/-- A fragment that is none of the counted list/item tags. -/
abbrev neutralFrag (f : String) : Prop :=
  isListOpenTag f = false ∧ isListCloseTag f = false ∧
  isItemOpenTag f = false ∧ isItemCloseTag f = false

/-- Count of list open tags among the fragments. -/
def cLO (dl : List String) : Nat := dl.countP isListOpenTag

/-- Count of list close tags among the fragments. -/
def cLC (dl : List String) : Nat := dl.countP isListCloseTag

/-- Count of item open tags among the fragments. -/
def ciOpen (dl : List String) : Nat := dl.countP isItemOpenTag

/-- Count of item close tags among the fragments. -/
def cIC (dl : List String) : Nat := dl.countP isItemCloseTag

/-- The collaborator record behaviours the balance statements rely on:
inline replacement never yields a bare list/item tag fragment, and the
delimited-block renderer only appends fragments, none of which is a bare
list/item tag.  (The concrete `specDeps` satisfies both.) -/
structure DepOk (dep : Deps) : Prop where
  ri : ∀ t, neutralFrag (dep.replaceInline t)
  db : ∀ ids r w, ∃ dl, (dep.dbRender ids r w).2.2 = w ++ dl ∧ ∀ f ∈ dl, neutralFrag f

/-- The escaped text contains no `<` character. -/
theorem escSpecials_no_lt (l : List Char) : '<' ∉ escSpecials l := by
  induction l with
  | nil => simp [escSpecials]
  | cons c cs ih =>
    simp only [escSpecials, List.mem_append]
    rintro (h | h)
    · split at h
      · revert h; decide
      · split at h
        · revert h; decide
        · split at h
          · revert h; decide
          · rename_i h1 h2 h3
            simp only [List.mem_singleton] at h
            exact h2 h.symm
    · exact ih h

/-- `specReplaceInline` never returns a string containing `<`. -/
theorem specReplaceInline_ne (t s : String) (hs : '<' ∈ s.data) :
    specReplaceInline t ≠ s := by
  intro he
  have hd : escSpecials t.data = s.data := congrArg String.data he
  exact escSpecials_no_lt t.data (hd ▸ hs)

/-- Strings without `<` are not list or item tags. -/
theorem neutralFrag_of_no_lt (f : String) (h : ∀ s : String, '<' ∈ s.data → f ≠ s) :
    neutralFrag f := by
  refine ⟨?_, ?_, ?_, ?_⟩
  · simp only [isListOpenTag, decide_eq_false_iff_not, not_or]
    exact ⟨h "<ul>" (by decide), h "<ol>" (by decide), h "<dl>" (by decide)⟩
  · simp only [isListCloseTag, decide_eq_false_iff_not, not_or]
    exact ⟨h "</ul>" (by decide), h "</ol>" (by decide), h "</dl>" (by decide)⟩
  · simp only [isItemOpenTag, decide_eq_false_iff_not, not_or]
    exact ⟨h "<li>" (by decide), h "<dd>" (by decide)⟩
  · simp only [isItemCloseTag, decide_eq_false_iff_not, not_or]
    exact ⟨h "</li>" (by decide), h "</dd>" (by decide)⟩

/-- Inline-replaced text is never a bare list/item tag. -/
theorem specReplaceInline_neutral (t : String) : neutralFrag (specReplaceInline t) :=
  neutralFrag_of_no_lt _ (fun s hs => specReplaceInline_ne t s hs)

/-- Appending a newline to escaped text still yields no bare tag. -/
theorem specReplaceInline_nl_neutral (t : String) :
    neutralFrag (specReplaceInline t ++ "\n") := by
  apply neutralFrag_of_no_lt
  intro s hs he
  have hd : (specReplaceInline t).data ++ "\n".data = s.data := by
    rw [← String.data_append, he]
  have : '<' ∈ (specReplaceInline t).data ++ "\n".data := hd ▸ hs
  rcases List.mem_append.1 this with h | h
  · exact escSpecials_no_lt t.data h
  · revert h; decide

/-- The fragments appended by `consumeLines` are all neutral. -/
theorem consumeLines_extends (ls : List String) (w : Writer) :
    ∃ dl, (consumeLines ls w).2 = w ++ dl ∧ ∀ f ∈ dl, neutralFrag f := by
  induction ls generalizing w with
  | nil => exact ⟨[], by simp [consumeLines], by simp⟩
  | cons l ls ih =>
    by_cases hl : l = ""
    · exact ⟨[], by simp [consumeLines, hl], by simp⟩
    · obtain ⟨dl, hdl, hne⟩ := ih (w ++ [specReplaceInline l ++ "\n"])
      refine ⟨(specReplaceInline l ++ "\n") :: dl, ?_, ?_⟩
      · rcases hc : consumeLines ls (w ++ [specReplaceInline l ++ "\n"]) with ⟨n, w1⟩
        rw [hc] at hdl
        simp only [consumeLines, if_neg hl, hc]
        simpa using hdl
      · intro f hf
        rcases List.mem_cons.1 hf with rfl | hf
        · exact specReplaceInline_nl_neutral l
        · exact hne f hf

/-- The concrete collaborators satisfy the balance-side conditions. -/
theorem specDepsOk : DepOk specDeps := by
  constructor
  · exact specReplaceInline_neutral
  · intro ids r w
    obtain ⟨dl, hdl, hne⟩ :=
      consumeLines_extends (r.lines.drop (r.pos + 1))
        (w ++ [specReplaceInline ((r.cursor).getD "") ++ "\n"])
    refine ⟨(specReplaceInline ((r.cursor).getD "") ++ "\n") :: dl, ?_, ?_⟩
    · show (specDbRender ids r w).2.2 = _
      rcases hc : consumeLines (r.lines.drop (r.pos + 1))
          (w ++ [specReplaceInline ((r.cursor).getD "") ++ "\n"]) with ⟨n, w1⟩
      rw [hc] at hdl
      simp only [specDbRender, hc]
      simpa using hdl
    · intro f hf
      rcases List.mem_cons.1 hf with rfl | hf
      · exact specReplaceInline_nl_neutral _
      · exact hne f hf

/-! ## Small facts about `matchItem` and `readToNext` -/

/-- Membership in the literal definition table. -/
theorem mem_defs {d : Definition} (hd : d ∈ defs) :
    d = ulDef ∨ d = olDef ∨ d = dlDef := by
  simpa only [defs, List.mem_cons, List.not_mem_nil, or_false] using hd

/-- Tag classification of the three registered definitions. -/
theorem tags_of_mem_defs {d : Definition} (hd : d ∈ defs) :
    isListOpenTag d.listOpenTag = true ∧ isListCloseTag d.listCloseTag = true ∧
    isItemOpenTag d.itemOpenTag = true ∧ isItemCloseTag d.itemCloseTag = true ∧
    isListCloseTag d.listOpenTag = false ∧ isItemOpenTag d.listOpenTag = false ∧
    isItemCloseTag d.listOpenTag = false ∧
    isListOpenTag d.listCloseTag = false ∧ isItemOpenTag d.listCloseTag = false ∧
    isItemCloseTag d.listCloseTag = false ∧
    isListOpenTag d.itemOpenTag = false ∧ isListCloseTag d.itemOpenTag = false ∧
    isItemCloseTag d.itemOpenTag = false ∧
    isListOpenTag d.itemCloseTag = false ∧ isListCloseTag d.itemCloseTag = false ∧
    isItemOpenTag d.itemCloseTag = false ∧
    neutralFrag (d.termOpenTag.getD "") ∧ neutralFrag (d.termCloseTag.getD "") := by
  rcases mem_defs hd with rfl | rfl | rfl <;>
    simp only [ulDef, olDef, dlDef, neutralFrag] <;> decide

/-- `findMatch` returns a member of its definition list. -/
theorem findMatch_mem {ds : List Definition} {line : String} {d : Definition}
    {m : List String} (h : findMatch ds line = some (d, m)) : d ∈ ds := by
  induction ds with
  | nil => simp [findMatch] at h
  | cons d0 ds ih =>
    simp only [findMatch] at h
    split at h
    · cases h; exact List.mem_cons_self _ _
    · exact List.mem_cons_of_mem _ (ih h)

/-- `findMatch` returns the captures of the matched definition. -/
theorem findMatch_exec {ds : List Definition} {line : String} {d : Definition}
    {m : List String} (h : findMatch ds line = some (d, m)) : d.rmatch line = some m := by
  induction ds with
  | nil => simp [findMatch] at h
  | cons d0 ds ih =>
    simp only [findMatch] at h
    split at h
    · rename_i heq
      cases h; exact heq
    · exact ih h

/-- When no definition matches, `findMatch` fails. -/
theorem findMatch_eq_none {ds : List Definition} {line : String}
    (h : ∀ d ∈ ds, d.rmatch line = none) : findMatch ds line = none := by
  induction ds with
  | nil => simp [findMatch]
  | cons d0 ds ih =>
    simp only [findMatch]
    rw [h d0 (List.mem_cons_self _ _)]
    exact ih (fun d hd => h d (List.mem_cons_of_mem _ hd))

/-- When some definition matches, `findMatch` succeeds. -/
theorem findMatch_isSome {ds : List Definition} {line : String}
    (h : ∃ d ∈ ds, d.rmatch line ≠ none) : ∃ p, findMatch ds line = some p := by
  induction ds with
  | nil => simp at h
  | cons d0 ds ih =>
    simp only [findMatch]
    rcases hm : d0.rmatch line with _ | m
    · obtain ⟨d, hd, hne⟩ := h
      rcases List.mem_cons.1 hd with rfl | hd
      · exact absurd hm hne
      · exact ih ⟨d, hd, hne⟩
    · exact ⟨(d0, m), rfl⟩

/-- A returned `ItemState` was built from a registered definition. -/
def MOk : Option Matched → Prop
  | some (.item st) => st.defn ∈ defs
  | _ => True

/-- A returned item (of the render loop) was built from a registered
definition. -/
def MOkI : Option ItemState → Prop
  | some st => st.defn ∈ defs
  | none => True

/-- Items produced by `matchItem` carry a registered definition. -/
theorem matchItem_MOk (dep : Deps) (r : Reader) (att : List String) :
    MOk (matchItem dep r att).1 := by
  unfold matchItem
  rcases r.cursor with _ | line
  · trivial
  · dsimp only
    rcases hf : findMatch defs line with _ | ⟨d, m⟩ <;> dsimp only
    · split <;> trivial
    · split
      · trivial
      · exact findMatch_mem hf

/-- A cursor line implies not end-of-input. -/
theorem eof_false_of_cursor {r : Reader} {l : String} (h : r.cursor = some l) :
    r.eof = false := by
  unfold Reader.cursor at h
  unfold Reader.eof
  have : r.pos < r.lines.length := by
    by_contra hc
    rw [List.getElem?_eq_none (Nat.le_of_not_lt hc)] at h
    cases h
  simpa [Nat.not_le] using this

/-- Items produced by `readToNext` carry a registered definition. -/
theorem readToNext_MOk (dep : Deps) : ∀ (fuel : Nat) (r : Reader) (w : Writer) out,
    readToNext dep fuel r w = some out → MOk out.1 := by
  intro fuel
  induction fuel with
  | zero => intro r w out h; simp [readToNext] at h
  | succ fuel ih =>
    intro r w out h
    simp only [readToNext] at h
    split at h
    · cases h; trivial
    · split at h
      · split at h
        · cases h; trivial
        · split at h
          · cases h; trivial
          · rcases hmi : matchItem dep r.next ["indented"] with ⟨m, r2⟩
            rw [hmi] at h
            cases h
            have := matchItem_MOk dep r.next ["indented"]
            rw [hmi] at this
            exact this
      · rcases hmi : matchItem dep r
            ["comment", "code", "division", "html", "quote", "quote-paragraph"] with ⟨m, r2⟩
        rw [hmi] at h
        rcases m with _ | m
        · simp only at h
          exact ih _ _ _ h
        · simp only at h
          cases h
          have := matchItem_MOk dep r
            ["comment", "code", "division", "html", "quote", "quote-paragraph"]
          rw [hmi] at this
          exact this

/-! ## The list-ID stack is restored on every exit path -/

/-- Joint structural invariant: `renderList` (push then pop) and the item
operations leave the list-ID stack as they found it; the render loop has
performed exactly the one pop for the enclosing push. -/
theorem idsInv (dep : Deps) : ∀ fuel : Nat,
    (∀ st s ret s1, renderList dep fuel st s = some (ret, s1) → s1.ids = s.ids) ∧
    (∀ st s ret s1, renderListLoop dep fuel st s = some (ret, s1) →
      s1.ids = s.ids.dropLast) ∧
    (∀ st s ret s1, renderListItem dep fuel st s = some (ret, s1) → s1.ids = s.ids) ∧
    (∀ d next s ret s1, itemLoop dep fuel d next s = some (ret, s1) → s1.ids = s.ids) ∧
    (∀ d s ret s1, renderAttached dep fuel d s = some (ret, s1) → s1.ids = s.ids) := by
  intro fuel
  induction fuel with
  | zero =>
    refine ⟨?_, ?_, ?_, ?_, ?_⟩
    · intro st s ret s1 h; simp [renderList] at h
    · intro st s ret s1 h; simp [renderListLoop] at h
    · intro st s ret s1 h; simp [renderListItem] at h
    · intro d next s ret s1 h; simp [itemLoop] at h
    · intro d s ret s1 h; simp [renderAttached] at h
  | succ fuel ih =>
    obtain ⟨ihRL, ihRLL, ihRLI, ihIL, ihRA⟩ := ih
    refine ⟨?_, ?_, ?_, ?_, ?_⟩
    · -- renderList: push, loop, and the loop pops the pushed ID.
      intro st s ret s1 h
      simp only [renderList] at h
      have := ihRLL st _ ret s1 h
      simpa using this
    · -- renderListLoop
      intro st s ret s1 h
      simp only [renderListLoop] at h
      split at h
      · exact absurd h (by simp)
      · rename_i next s2 heq
        have h2 := ihRLI st s next s2 heq
        rcases next with _ | nx
        · dsimp only at h
          cases h
          simp [h2]
        · dsimp only at h
          split at h
          · have := ihRLL nx s2 ret s1 h
            rw [this, h2]
          · cases h
            simp [h2]
    · -- renderListItem
      intro st s ret s1 h
      simp only [renderListItem] at h
      split at h
      · exact absurd h (by simp)
      · rename_i next r1 sc1 heq
        have := ihIL st.defn next _ ret s1 h
        simpa using this
    · -- itemLoop
      intro d next s ret s1 h
      simp only [itemLoop] at h
      rcases next with _ | nx
      · dsimp only at h
        cases h
        rfl
      · rcases nx with st | _
        · dsimp only at h
          split at h
          · exact ihRA d s ret s1 h
          · split at h
            · cases h
              rfl
            · rcases hR : renderList dep fuel st s with _ | ⟨ret0, s2⟩
              · rw [hR] at h
                simp at h
              · rw [hR] at h
                dsimp only at h
                cases h
                have := ihRL st s _ _ hR
                simpa using this
        · dsimp only at h
          exact ihRA d s ret s1 h
    · -- renderAttached
      intro d s ret s1 h
      simp only [renderAttached] at h
      split at h
      · cases h
        rfl
      · have := ihIL d _ _ ret s1 h
        simpa using this

/-! ## Tag counting -/

theorem cLO_append (a b : List String) : cLO (a ++ b) = cLO a + cLO b :=
  List.countP_append _ _ _

theorem cLC_append (a b : List String) : cLC (a ++ b) = cLC a + cLC b :=
  List.countP_append _ _ _

theorem ciOpen_append (a b : List String) : ciOpen (a ++ b) = ciOpen a + ciOpen b :=
  List.countP_append _ _ _

theorem cIC_append (a b : List String) : cIC (a ++ b) = cIC a + cIC b :=
  List.countP_append _ _ _

theorem cLO_cons_true {f : String} (dl : List String) (h : isListOpenTag f = true) :
    cLO (f :: dl) = cLO dl + 1 := by simp [cLO, List.countP_cons, h]

theorem cLO_cons_false {f : String} (dl : List String) (h : isListOpenTag f = false) :
    cLO (f :: dl) = cLO dl := by simp [cLO, List.countP_cons, h]

theorem cLC_cons_true {f : String} (dl : List String) (h : isListCloseTag f = true) :
    cLC (f :: dl) = cLC dl + 1 := by simp [cLC, List.countP_cons, h]

theorem cLC_cons_false {f : String} (dl : List String) (h : isListCloseTag f = false) :
    cLC (f :: dl) = cLC dl := by simp [cLC, List.countP_cons, h]

theorem ciOpen_cons_true {f : String} (dl : List String) (h : isItemOpenTag f = true) :
    ciOpen (f :: dl) = ciOpen dl + 1 := by simp [ciOpen, List.countP_cons, h]

theorem ciOpen_cons_false {f : String} (dl : List String) (h : isItemOpenTag f = false) :
    ciOpen (f :: dl) = ciOpen dl := by simp [ciOpen, List.countP_cons, h]

theorem cIC_cons_true {f : String} (dl : List String) (h : isItemCloseTag f = true) :
    cIC (f :: dl) = cIC dl + 1 := by simp [cIC, List.countP_cons, h]

theorem cIC_cons_false {f : String} (dl : List String) (h : isItemCloseTag f = false) :
    cIC (f :: dl) = cIC dl := by simp [cIC, List.countP_cons, h]

theorem cLO_nil : cLO [] = 0 := rfl
theorem cLC_nil : cLC [] = 0 := rfl
theorem ciOpen_nil : ciOpen [] = 0 := rfl
theorem cIC_nil : cIC [] = 0 := rfl

/-- Neutral fragments count as zero everywhere. -/
theorem counts_neutral {dl : List String} (h : ∀ f ∈ dl, neutralFrag f) :
    cLO dl = 0 ∧ cLC dl = 0 ∧ ciOpen dl = 0 ∧ cIC dl = 0 := by
  refine ⟨?_, ?_, ?_, ?_⟩ <;> apply List.countP_eq_zero.mpr <;> intro a ha <;>
    simp [(h a ha).1, (h a ha).2.1, (h a ha).2.2.1, (h a ha).2.2.2]

/-- The last element of an appended nonempty suffix. -/
theorem getLast?_append_some {α : Type} (l1 : List α) {l2 : List α} {x : α}
    (h : l2.getLast? = some x) : (l1 ++ l2).getLast? = some x := by
  rw [List.getLast?_append_of_ne_nil l1 (by rintro rfl; simp at h)]
  exact h

/-! ## Writer balance on every exit path -/

/-- Joint writer invariant, assuming the collaborators never emit a bare
list/item tag fragment: each render operation only appends fragments;
`renderList` deltas have equal list-open/close and item-open/close
counts; the loop deltas carry exactly the one extra close tag for their
enclosing open tag, ending in it; and every returned item was built by
`matchItem` from a registered definition. -/
theorem wrInv (dep : Deps) (hdep : DepOk dep) : ∀ fuel : Nat,
    (∀ st s ret s1, st.defn ∈ defs → renderList dep fuel st s = some (ret, s1) →
      MOkI ret ∧ ∃ dl, s1.wr = s.wr ++ dl ∧ cLO dl = cLC dl ∧ ciOpen dl = cIC dl) ∧
    (∀ st s ret s1, st.defn ∈ defs → renderListLoop dep fuel st s = some (ret, s1) →
      MOkI ret ∧ ∃ dl, s1.wr = s.wr ++ dl ∧ cLC dl = cLO dl + 1 ∧ ciOpen dl = cIC dl) ∧
    (∀ st s ret s1, st.defn ∈ defs → renderListItem dep fuel st s = some (ret, s1) →
      MOkI ret ∧ ∃ dl, s1.wr = s.wr ++ dl ∧ cLO dl = cLC dl ∧ ciOpen dl = cIC dl ∧
        dl.getLast? = some st.defn.itemCloseTag) ∧
    (∀ d next s ret s1, d ∈ defs → MOk next →
      itemLoop dep fuel d next s = some (ret, s1) →
      MOkI ret ∧ ∃ dl, s1.wr = s.wr ++ dl ∧ cLO dl = cLC dl ∧ cIC dl = ciOpen dl + 1 ∧
        dl.getLast? = some d.itemCloseTag) ∧
    (∀ d s ret s1, d ∈ defs → renderAttached dep fuel d s = some (ret, s1) →
      MOkI ret ∧ ∃ dl, s1.wr = s.wr ++ dl ∧ cLO dl = cLC dl ∧ cIC dl = ciOpen dl + 1 ∧
        dl.getLast? = some d.itemCloseTag) := by
  intro fuel
  induction fuel with
  | zero =>
    refine ⟨?_, ?_, ?_, ?_, ?_⟩
    · intro st s ret s1 _ h; simp [renderList] at h
    · intro st s ret s1 _ h; simp [renderListLoop] at h
    · intro st s ret s1 _ h; simp [renderListItem] at h
    · intro d next s ret s1 _ _ h; simp [itemLoop] at h
    · intro d s ret s1 _ h; simp [renderAttached] at h
  | succ fuel ih =>
    obtain ⟨ihRL, ihRLL, ihRLI, ihIL, ihRA⟩ := ih
    refine ⟨?_, ?_, ?_, ?_, ?_⟩
    · -- renderList: the open tag plus a loop delta carrying one extra close.
      intro st s ret s1 hd h
      simp only [renderList] at h
      obtain ⟨hM, dl2, hw, hc1, hc2⟩ := ihRLL st _ ret s1 hd h
      obtain ⟨t1, t2, t3, t4, t5, t6, t7, t8, t9, t10, t11, t12, t13, t14, t15,
        t16, tTO, tTC⟩ := tags_of_mem_defs hd
      refine ⟨hM, st.defn.listOpenTag :: dl2, ?_, ?_, ?_⟩
      · rw [hw]
        simp [injectHtmlAttributes, blockAttributes]
      · rw [cLO_cons_true _ t1, cLC_cons_false _ t5]
        omega
      · rw [ciOpen_cons_false _ t6, cIC_cons_false _ t7]
        omega
    · -- renderListLoop
      intro st s ret s1 hd h
      simp only [renderListLoop] at h
      split at h
      · exact absurd h (by simp)
      · rename_i next s2 heq
        obtain ⟨hMn, dlI, hwI, hlo, hio, hlast⟩ := ihRLI st s next s2 hd heq
        obtain ⟨t1, t2, t3, t4, t5, t6, t7, t8, t9, t10, t11, t12, t13, t14, t15,
          t16, tTO, tTC⟩ := tags_of_mem_defs hd
        rcases next with _ | nx
        · dsimp only at h
          cases h
          refine ⟨trivial, dlI ++ [st.defn.listCloseTag], ?_, ?_, ?_⟩
          · simp [hwI]
          · rw [cLC_append, cLO_append, cLC_cons_true _ t2, cLO_cons_false _ t8,
              cLC_nil, cLO_nil]
            omega
          · rw [ciOpen_append, cIC_append, ciOpen_cons_false _ t9, cIC_cons_false _ t10,
              ciOpen_nil, cIC_nil]
            omega
        · dsimp only at h
          split at h
          · obtain ⟨hM2, dl2, hw2, hc3, hc4⟩ := ihRLL nx s2 ret s1 hMn h
            refine ⟨hM2, dlI ++ dl2, ?_, ?_, ?_⟩
            · rw [hw2, hwI]
              simp
            · rw [cLC_append, cLO_append]
              omega
            · rw [ciOpen_append, cIC_append]
              omega
          · cases h
            refine ⟨hMn, dlI ++ [st.defn.listCloseTag], ?_, ?_, ?_⟩
            · simp [hwI]
            · rw [cLC_append, cLO_append, cLC_cons_true _ t2, cLO_cons_false _ t8,
                cLC_nil, cLO_nil]
              omega
            · rw [ciOpen_append, cIC_append, ciOpen_cons_false _ t9, cIC_cons_false _ t10,
                ciOpen_nil, cIC_nil]
              omega
    · -- renderListItem: optional term fragments, the item open tag, the
      -- inline-replaced text, then the loop delta ending in the close tag.
      intro st s ret s1 hd h
      simp only [renderListItem] at h
      split at h
      · exact absurd h (by simp)
      · rename_i next r1 sc1 heq
        have hMn : MOk next := by
          have := readToNext_MOk dep fuel _ _ _ heq
          exact this
        obtain ⟨hM, dl2, hw, hc1, hc2, hlast⟩ := ihIL st.defn next _ ret s1 hd hMn h
        obtain ⟨t1, t2, t3, t4, t5, t6, t7, t8, t9, t10, t11, t12, t13, t14, t15,
          t16, tTO, tTC⟩ := tags_of_mem_defs hd
        have hri := hdep.ri (String.join sc1)
        by_cases h4 : st.rmatch.length = 4
        · rw [if_pos h4] at hw
          have hri1 := hdep.ri ((st.rmatch[1]?).getD "")
          refine ⟨hM, st.defn.termOpenTag.getD "" ::
              dep.replaceInline ((st.rmatch[1]?).getD "") ::
              st.defn.termCloseTag.getD "" :: st.defn.itemOpenTag ::
              dep.replaceInline (String.join sc1) :: dl2, ?_, ?_, ?_, ?_⟩
          · rw [hw]
            simp
          · rw [cLO_cons_false _ tTO.1, cLO_cons_false _ hri1.1,
              cLO_cons_false _ tTC.1, cLO_cons_false _ t11, cLO_cons_false _ hri.1,
              cLC_cons_false _ tTO.2.1, cLC_cons_false _ hri1.2.1,
              cLC_cons_false _ tTC.2.1, cLC_cons_false _ t12,
              cLC_cons_false _ hri.2.1]
            omega
          · rw [ciOpen_cons_false _ tTO.2.2.1, ciOpen_cons_false _ hri1.2.2.1,
              ciOpen_cons_false _ tTC.2.2.1, ciOpen_cons_true _ t3,
              ciOpen_cons_false _ hri.2.2.1,
              cIC_cons_false _ tTO.2.2.2, cIC_cons_false _ hri1.2.2.2,
              cIC_cons_false _ tTC.2.2.2, cIC_cons_false _ t13,
              cIC_cons_false _ hri.2.2.2]
            omega
          · exact getLast?_append_some [_, _, _, _, _] hlast
        · rw [if_neg h4] at hw
          refine ⟨hM, st.defn.itemOpenTag ::
              dep.replaceInline (String.join sc1) :: dl2, ?_, ?_, ?_, ?_⟩
          · rw [hw]
            simp
          · rw [cLO_cons_false _ t11, cLO_cons_false _ hri.1,
              cLC_cons_false _ t12, cLC_cons_false _ hri.2.1]
            omega
          · rw [ciOpen_cons_true _ t3, ciOpen_cons_false _ hri.2.2.1,
              cIC_cons_false _ t13, cIC_cons_false _ hri.2.2.2]
            omega
          · exact getLast?_append_some [_, _] hlast
    · -- itemLoop
      intro d next s ret s1 hd hMn h
      simp only [itemLoop] at h
      obtain ⟨t1, t2, t3, t4, t5, t6, t7, t8, t9, t10, t11, t12, t13, t14, t15,
        t16, tTO, tTC⟩ := tags_of_mem_defs hd
      rcases next with _ | nx
      · dsimp only at h
        cases h
        refine ⟨trivial, [d.itemCloseTag], by simp, ?_, ?_, by simp⟩
        · rw [cLO_cons_false _ t14, cLC_cons_false _ t15]
          rfl
        · rw [cIC_cons_true _ t4, ciOpen_cons_false _ t16]
          rfl
      · rcases nx with st | _
        · dsimp only at h
          split at h
          · exact ihRA d s ret s1 hd h
          · split at h
            · cases h
              refine ⟨hMn, [d.itemCloseTag], by simp, ?_, ?_, by simp⟩
              · rw [cLO_cons_false _ t14, cLC_cons_false _ t15]
                rfl
              · rw [cIC_cons_true _ t4, ciOpen_cons_false _ t16]
                rfl
            · rcases hR : renderList dep fuel st s with _ | ⟨ret0, s2⟩
              · rw [hR] at h
                simp at h
              · rw [hR] at h
                dsimp only at h
                cases h
                obtain ⟨hM2, dl2, hw2, hc1, hc2⟩ := ihRL st s _ _ hMn hR
                refine ⟨hM2, dl2 ++ [d.itemCloseTag], ?_, ?_, ?_, by simp⟩
                · rw [hw2]
                  simp
                · rw [cLO_append, cLC_append, cLO_cons_false _ t14,
                    cLC_cons_false _ t15, cLO_nil, cLC_nil]
                  omega
                · rw [ciOpen_append, cIC_append, ciOpen_cons_false _ t16,
                    cIC_cons_true _ t4, ciOpen_nil, cIC_nil]
                  omega
        · dsimp only at h
          exact ihRA d s ret s1 hd h
    · -- renderAttached: delta of the block renderer (all neutral), then
      -- either the close tag or a further loop delta.
      intro d s ret s1 hd h
      simp only [renderAttached] at h
      obtain ⟨t1, t2, t3, t4, t5, t6, t7, t8, t9, t10, t11, t12, t13, t14, t15,
        t16, tTO, tTC⟩ := tags_of_mem_defs hd
      obtain ⟨dlb, hdb, hnb⟩ := hdep.db [] s.rd s.wr
      obtain ⟨z1, z2, z3, z4⟩ := counts_neutral hnb
      split at h
      · cases h
        refine ⟨trivial, dlb ++ [d.itemCloseTag], ?_, ?_, ?_, ?_⟩
        · rw [hdb]
          simp
        · rw [cLO_append, cLC_append, cLO_cons_false _ t14, cLC_cons_false _ t15,
            cLO_nil, cLC_nil, z1, z2]
        · rw [ciOpen_append, cIC_append, ciOpen_cons_false _ t16, cIC_cons_true _ t4,
            ciOpen_nil, cIC_nil, z3, z4]
        · exact getLast?_append_some dlb (by simp)
      · have hMn := matchItem_MOk dep
          ((dep.dbRender [] s.rd s.wr).2.1.skipBlankLines) []
        obtain ⟨hM2, dl2, hw2, hc1, hc2, hlast⟩ := ihIL d _ _ ret s1 hd hMn h
        refine ⟨hM2, dlb ++ dl2, ?_, ?_, ?_, getLast?_append_some dlb hlast⟩
        · rw [hw2, hdb]
          simp
        · rw [cLO_append, cLC_append, z1, z2]
          omega
        · rw [ciOpen_append, cIC_append, z3, z4]
          omega

/-! ## The block renderer sees an empty stack and its stack is discarded -/

/-- `matchItem` only consults the open-pattern tests of the collaborators. -/
theorem matchItem_congr (dep1 dep2 : Deps)
    (hom : dep1.openMatchTest = dep2.openMatchTest) (r : Reader)
    (att : List String) : matchItem dep1 r att = matchItem dep2 r att := by
  unfold matchItem
  rw [hom]

/-- `readToNext` only consults the open-pattern tests of the collaborators. -/
theorem readToNext_congr (dep1 dep2 : Deps)
    (hom : dep1.openMatchTest = dep2.openMatchTest) :
    ∀ fuel r w, readToNext dep1 fuel r w = readToNext dep2 fuel r w := by
  intro fuel
  induction fuel with
  | zero => intro r w; rfl
  | succ fuel ih =>
    intro r w
    simp only [readToNext]
    split
    · rfl
    · split
      · split
        · rfl
        · split
          · rfl
          · rw [matchItem_congr dep1 dep2 hom]
      · rw [matchItem_congr dep1 dep2 hom]
        rcases matchItem dep2 r
          ["comment", "code", "division", "html", "quote", "quote-paragraph"] with ⟨m, r2⟩
        rcases m with _ | m
        · dsimp only
          exact ih _ _
        · rfl

/-- Two collaborator records whose block renderers agree on the Reader and
Writer effects for an empty incoming list-ID stack (their stack outputs
may differ arbitrarily) drive the whole List Engine identically: the
engine only ever hands the block renderer an empty stack and discards
the stack it returns. -/
theorem dbFrame (dep1 dep2 : Deps)
    (hom : dep1.openMatchTest = dep2.openMatchTest)
    (hri : dep1.replaceInline = dep2.replaceInline)
    (hdb : ∀ r w, (dep1.dbRender [] r w).2 = (dep2.dbRender [] r w).2) :
    ∀ fuel : Nat,
      (∀ st s, renderList dep1 fuel st s = renderList dep2 fuel st s) ∧
      (∀ st s, renderListLoop dep1 fuel st s = renderListLoop dep2 fuel st s) ∧
      (∀ st s, renderListItem dep1 fuel st s = renderListItem dep2 fuel st s) ∧
      (∀ d next s, itemLoop dep1 fuel d next s = itemLoop dep2 fuel d next s) ∧
      (∀ d s, renderAttached dep1 fuel d s = renderAttached dep2 fuel d s) := by
  intro fuel
  induction fuel with
  | zero =>
    exact ⟨fun _ _ => rfl, fun _ _ => rfl, fun _ _ => rfl, fun _ _ _ => rfl,
      fun _ _ => rfl⟩
  | succ fuel ih =>
    obtain ⟨ihRL, ihRLL, ihRLI, ihIL, ihRA⟩ := ih
    refine ⟨?_, ?_, ?_, ?_, ?_⟩
    · intro st s
      simp only [renderList]
      exact ihRLL st _
    · intro st s
      simp only [renderListLoop]
      rw [ihRLI st s]
      rcases renderListItem dep2 fuel st s with _ | ⟨next, s1⟩
      · rfl
      · dsimp only
        rcases next with _ | nx
        · rfl
        · dsimp only
          split
          · exact ihRLL nx s1
          · rfl
    · intro st s
      simp only [renderListItem]
      rw [hri, readToNext_congr dep1 dep2 hom]
      rcases readToNext dep2 fuel s.rd.next
        [(st.rmatch[st.rmatch.length - 1]?).getD "", "\n"] with _ | ⟨next, r1, sc1⟩
      · rfl
      · dsimp only
        exact ihIL st.defn next _
    · intro d next s
      simp only [itemLoop]
      rcases next with _ | nx
      · rfl
      · rcases nx with st | _
        · dsimp only
          split
          · exact ihRA d s
          · split
            · rfl
            · rw [ihRL st s]
        · dsimp only
          exact ihRA d s
    · intro d s
      simp only [renderAttached]
      simp only [hdb s.rd s.wr, matchItem_congr dep1 dep2 hom]
      split
      · rfl
      · exact ihIL d _ _

/-! ## Auxiliary facts for the claim theorems -/

/-- Every capture array produced by a registered pattern has the whole
line as `match[0]` (the patterns are anchored at both ends). -/
theorem exec_head {d : Definition} (hd : d ∈ defs) {line : String}
    {m : List String} (h : d.rmatch line = some m) : m[0]? = some line := by
  rcases mem_defs hd with rfl | rfl | rfl
  · simp only [ulDef, execUnordered] at h
    split at h
    · cases h
      rfl
    · cases h
  · simp only [olDef, execOrdered] at h
    split at h
    · cases h
      rfl
    · cases h
  · simp only [dlDef, execDefinition] at h
    split at h
    · cases h
      rfl
    · cases h

/-- The list ID extracted from a `matchItem` result (for stating concrete
examples). -/
def matchedId (p : Option Matched × Reader) : Option String :=
  match p.1 with
  | some (.item st) => some st.id
  | _ => none

/-! ## Claim theorems -/

/-- C1: for every input on which the List Engine's render returns, the
number of list-open-tag fragments written equals the number of
list-close-tag fragments written (the writer is only appended to), the
list-ID stack ends empty on a successful render, and every `renderList`
call (push on entry) restores the ID stack it was given (its single
matching pop), on every exit path. -/
theorem c1_list_tag_balance :
    (∀ fuel s b s1, render specDeps fuel s = some (.ok (b, s1)) →
      ∃ dl, s1.wr = s.wr ++ dl ∧ cLO dl = cLC dl ∧ (b = true → s1.ids = [])) ∧
    (∀ fuel st s ret s1, renderList specDeps fuel st s = some (ret, s1) →
      s1.ids = s.ids) := by
  constructor
  · intro fuel s b s1 h
    unfold render at h
    split at h
    · exact absurd h (by simp)
    · rcases hmi : matchItem specDeps s.rd [] with ⟨m, r1⟩
      rw [hmi] at h
      rcases m with _ | m
      · dsimp only at h
        cases h
        exact ⟨[], by simp, rfl, by intro hb; exact absurd hb (by simp)⟩
      · rcases m with st | _
        · dsimp only at h
          rcases hR : renderList specDeps fuel st ⟨[], r1, s.wr⟩ with _ | ⟨ret0, s2⟩
          · rw [hR] at h
            exact absurd h (by simp)
          · rw [hR] at h
            dsimp only at h
            cases h
            have hdfn : st.defn ∈ defs := by
              have := matchItem_MOk specDeps s.rd []
              rw [hmi] at this
              exact this
            obtain ⟨_, dl, hw, hc1, _⟩ :=
              (wrInv specDeps specDepsOk fuel).1 st _ _ _ hdfn hR
            have hids := (idsInv specDeps fuel).1 st _ _ _ hR
            exact ⟨dl, by simpa using hw, hc1, fun _ => by simpa using hids⟩
        · dsimp only at h
          cases h
          exact ⟨[], by simp, rfl, by intro hb; exact absurd hb (by simp)⟩
  · intro fuel st s ret s1 h
    exact (idsInv specDeps fuel).1 st s ret s1 h

/-- C1 witness: a concrete two-item list. -/
theorem c1_witness :
    ∃ dl, (⟨[], ⟨["- a", "- b"], 2⟩,
        ["<ul>", "<li>", "a\n", "</li>", "<li>", "b\n", "</li>", "</ul>"]⟩ :
        LState).wr = ([] : Writer) ++ dl ∧ cLO dl = cLC dl ∧
      (true = true → (⟨[], ⟨["- a", "- b"], 2⟩,
        ["<ul>", "<li>", "a\n", "</li>", "<li>", "b\n", "</li>", "</ul>"]⟩ :
        LState).ids = []) :=
  c1_list_tag_balance.1 20 ⟨[], ⟨["- a", "- b"], 0⟩, []⟩ true
    ⟨[], ⟨["- a", "- b"], 2⟩,
      ["<ul>", "<li>", "a\n", "</li>", "<li>", "b\n", "</li>", "</ul>"]⟩ rfl

/-- C2: inside a list item, a further item whose ID is already on the
open-ID stack closes the current item (one close tag) and is returned to
the ancestor; an item with a new ID starts a child list via a recursive
`renderList` whose return value is passed through after closing the
item; and in the list loop a returned item with a different ID closes
the list and propagates upward, while one with the same ID continues the
loop. -/
theorem c2_sibling_and_nested (dep : Deps) (fuel : Nat) (d : Definition)
    (st : ItemState) (s : LState) :
    (st.id ≠ "" → s.ids.contains st.id = true →
      itemLoop dep (fuel + 1) d (some (.item st)) s =
        some (some st, ⟨s.ids, s.rd, s.wr ++ [d.itemCloseTag]⟩)) ∧
    (st.id ≠ "" → s.ids.contains st.id = false → ∀ ret s1,
      renderList dep fuel st s = some (ret, s1) →
      itemLoop dep (fuel + 1) d (some (.item st)) s =
        some (ret, ⟨s1.ids, s1.rd, s1.wr ++ [d.itemCloseTag]⟩)) ∧
    (∀ st0 s0 nx s1, renderListItem dep fuel st0 s0 = some (some nx, s1) →
      nx.id ≠ st0.id →
      renderListLoop dep (fuel + 1) st0 s0 =
        some (some nx, ⟨s1.ids.dropLast, s1.rd, s1.wr ++ [st0.defn.listCloseTag]⟩)) ∧
    (∀ st0 s0 nx s1, renderListItem dep fuel st0 s0 = some (some nx, s1) →
      nx.id = st0.id →
      renderListLoop dep (fuel + 1) st0 s0 = renderListLoop dep fuel nx s1) := by
  refine ⟨?_, ?_, ?_, ?_⟩
  · intro hne hc
    simp only [itemLoop]
    rw [if_neg hne, if_pos hc]
  · intro hne hc ret s1 hR
    simp only [itemLoop]
    rw [if_neg hne, if_neg (show ¬s.ids.contains st.id = true by rw [hc]; decide), hR]
  · intro st0 s0 nx s1 hI hne
    simp only [renderListLoop]
    rw [hI]
    dsimp only
    rw [if_neg hne]
  · intro st0 s0 nx s1 hI heq
    simp only [renderListLoop]
    rw [hI]
    dsimp only
    rw [if_pos heq]

/-- C2 witness: concrete instances of all four behaviours. -/
theorem c2_witness :
    (itemLoop specDeps 5 ulDef
        (some (.item ⟨["- x", "-", "x"], ulDef, "-"⟩))
        ⟨["-"], ⟨["- x"], 0⟩, []⟩ =
      some (some ⟨["- x", "-", "x"], ulDef, "-"⟩,
        ⟨["-"], ⟨["- x"], 0⟩, ["</li>"]⟩)) ∧
    (itemLoop specDeps 7 ulDef
        (some (.item ⟨["* y", "*", "y"], ulDef, "*"⟩))
        ⟨["-"], ⟨["* y"], 0⟩, []⟩ =
      some (none, ⟨["-"], ⟨["* y"], 1⟩,
        ["<ul>", "<li>", "y\n", "</li>", "</ul>"] ++ ["</li>"]⟩)) ∧
    (renderListLoop specDeps 7 ⟨["- x", "-", "x"], ulDef, "-"⟩
        ⟨["*", "-"], ⟨["- x", "* z"], 0⟩, []⟩ =
      some (some ⟨["* z", "*", "z"], ulDef, "*"⟩,
        ⟨["*"], ⟨["- x", "* z"], 1⟩,
          ["<li>", "x\n", "</li>"] ++ ["</ul>"]⟩)) ∧
    (renderListLoop specDeps 7 ⟨["- x", "-", "x"], ulDef, "-"⟩
        ⟨["-"], ⟨["- x", "- y"], 0⟩, []⟩ =
      renderListLoop specDeps 6 ⟨["- y", "-", "y"], ulDef, "-"⟩
        ⟨["-"], ⟨["- x", "- y"], 1⟩, ["<li>", "x\n", "</li>"]⟩) := by
  refine ⟨?_, ?_, ?_, ?_⟩
  · exact (c2_sibling_and_nested specDeps 4 ulDef _ _).1 (by decide) (by decide)
  · exact (c2_sibling_and_nested specDeps 6 ulDef ⟨["* y", "*", "y"], ulDef, "*"⟩
      ⟨["-"], ⟨["* y"], 0⟩, []⟩).2.1 (by decide) (by decide) none
      ⟨["-"], ⟨["* y"], 1⟩, ["<ul>", "<li>", "y\n", "</li>", "</ul>"]⟩ (by rfl)
  · exact (c2_sibling_and_nested specDeps 6 ulDef
      ⟨["- x", "-", "x"], ulDef, "-"⟩ ⟨["*", "-"], ⟨["- x", "* z"], 0⟩, []⟩).2.2.1
      ⟨["- x", "-", "x"], ulDef, "-"⟩ ⟨["*", "-"], ⟨["- x", "* z"], 0⟩, []⟩
      ⟨["* z", "*", "z"], ulDef, "*"⟩
      ⟨["*", "-"], ⟨["- x", "* z"], 1⟩, ["<li>", "x\n", "</li>"]⟩
      (by rfl) (by decide)
  · exact (c2_sibling_and_nested specDeps 6 ulDef
      ⟨["- x", "-", "x"], ulDef, "-"⟩ ⟨["-"], ⟨["- x", "- y"], 0⟩, []⟩).2.2.2
      ⟨["- x", "-", "x"], ulDef, "-"⟩ ⟨["-"], ⟨["- x", "- y"], 0⟩, []⟩
      ⟨["- y", "-", "y"], ulDef, "-"⟩
      ⟨["-"], ⟨["- x", "- y"], 1⟩, ["<li>", "x\n", "</li>"]⟩
      (by rfl) rfl

/-- C3: for every line on which a list pattern matches, the assigned list
ID is exactly the second-to-last capture group of the matching pattern's
capture array (the bullet text, dot run, or colon run), so visually
different markers yield distinct IDs. -/
theorem c3_list_id_second_to_last :
    (∀ (dep : Deps) (r : Reader) (att : List String) (st : ItemState)
        (r1 : Reader),
      matchItem dep r att = (some (.item st), r1) →
      st.id = ((st.rmatch[st.rmatch.length - 2]?).getD "") ∧
      st.defn.rmatch ((r.cursor).getD "") = some st.rmatch) ∧
    execUnordered "- x" = some ["- x", "-", "x"] ∧
    execUnordered "* x" = some ["* x", "*", "x"] ∧
    execUnordered "** x" = some ["** x", "**", "x"] ∧
    execOrdered "12.. y" = some ["12.. y", "..", "y"] ∧
    execDefinition "Term:: Definition" =
      some ["Term:: Definition", "Term", "::", " Definition"] ∧
    matchedId (matchItem specDeps ⟨["- x"], 0⟩ []) = some "-" ∧
    matchedId (matchItem specDeps ⟨["* x"], 0⟩ []) = some "*" ∧
    matchedId (matchItem specDeps ⟨["** x"], 0⟩ []) = some "**" ∧
    matchedId (matchItem specDeps ⟨["12.. y"], 0⟩ []) = some ".." ∧
    matchedId (matchItem specDeps ⟨["Term:: Definition"], 0⟩ []) = some "::" ∧
    ("-" ≠ "*" ∧ "-" ≠ "**" ∧ ("*" : String) ≠ "**") := by
  refine ⟨?_, rfl, rfl, rfl, rfl, rfl, rfl, rfl, rfl, rfl, rfl, by decide⟩
  intro dep r att st r1 h
  unfold matchItem at h
  rcases hcur : r.cursor with _ | line <;> rw [hcur] at h
  · simp only [Prod.mk.injEq] at h
    cases h.1
  · dsimp only at h
    rcases hf : findMatch defs line with _ | ⟨d0, m0⟩ <;> rw [hf] at h
    · dsimp only at h
      split at h <;> simp only [Prod.mk.injEq] at h
      · cases h.1
      · cases h.1
    · dsimp only at h
      split at h <;> simp only [Prod.mk.injEq] at h
      · cases h.1
      · obtain ⟨h1, _⟩ := h
        cases h1
        exact ⟨rfl, by simpa using findMatch_exec hf⟩

/-- C3 witness: a concrete `matchItem` call instantiating the universal
part. -/
theorem c3_witness :
    (⟨["12.. y", "..", "y"], olDef, ".."⟩ : ItemState).id =
      ((["12.. y", "..", "y"].get? (3 - 2)).getD "") ∧
    (⟨["12.. y", "..", "y"], olDef, ".."⟩ : ItemState).defn.rmatch
      (((⟨["12.. y"], 0⟩ : Reader).cursor).getD "") =
      some ["12.. y", "..", "y"] := by
  have := c3_list_id_second_to_last.1 specDeps ⟨["12.. y"], 0⟩ []
    ⟨["12.. y", "..", "y"], olDef, ".."⟩ ⟨["12.. y"], 0⟩ rfl
  exact ⟨this.1, this.2⟩

/-- C4: while scanning continuation lines, end of input ends the scan
(`readToNext` reports no further element, closing all open items), a
blank line followed by a second blank line ends the scan with the Reader
on the second blank (terminating the whole list), a blank line at the
end of input likewise ends the scan, and a single blank line followed by
a non-blank line delegates to `matchItem` with the indented attachment
allowed (continuation or new item); a missing next element makes the
item loop close the item and the list loop close the list. -/
theorem c4_blank_lines_and_eof (dep : Deps) (fuel : Nat) (r : Reader)
    (w : Writer) :
    (r.eof = true → readToNext dep (fuel + 1) r w = some (none, r, w)) ∧
    (r.cursor = some "" → r.next.cursor = some "" →
      readToNext dep (fuel + 1) r w = some (none, r.next, w)) ∧
    (r.cursor = some "" → r.next.eof = true →
      readToNext dep (fuel + 1) r w = some (none, r.next, w)) ∧
    (r.cursor = some "" → r.next.cursor ≠ some "" → r.next.eof = false →
      readToNext dep (fuel + 1) r w =
        some ((matchItem dep r.next ["indented"]).1,
          (matchItem dep r.next ["indented"]).2, w)) ∧
    (∀ d s, itemLoop dep (fuel + 1) d none s =
      some (none, ⟨s.ids, s.rd, s.wr ++ [d.itemCloseTag]⟩)) ∧
    (∀ st s s1, renderListItem dep fuel st s = some (none, s1) →
      renderListLoop dep (fuel + 1) st s =
        some (none, ⟨s1.ids.dropLast, s1.rd, s1.wr ++ [st.defn.listCloseTag]⟩)) := by
  refine ⟨?_, ?_, ?_, ?_, ?_, ?_⟩
  · intro he
    simp only [readToNext]
    rw [if_pos he]
  · intro hb hb2
    simp only [readToNext]
    rw [if_neg (by simp [eof_false_of_cursor hb]), if_pos hb, if_pos hb2]
  · intro hb he
    have hb2 : ¬r.next.cursor = some "" := by
      have : r.next.cursor = none := by
        unfold Reader.cursor
        exact List.getElem?_eq_none (by simpa [Reader.eof, Reader.next] using he)
      simp [this]
    simp only [readToNext]
    rw [if_neg (by simp [eof_false_of_cursor hb]), if_pos hb, if_neg hb2,
      if_pos he]
  · intro hb hb2 he
    simp only [readToNext]
    rw [if_neg (by simp [eof_false_of_cursor hb]), if_pos hb, if_neg hb2,
      if_neg (by simp [he])]
  · intro d s
    simp only [itemLoop]
  · intro st s s1 hI
    simp only [renderListLoop]
    rw [hI]

/-- C4 witness: concrete blank-line and end-of-input scans. -/
theorem c4_witness :
    (readToNext specDeps 3 ⟨[], 0⟩ [] = some (none, ⟨[], 0⟩, [])) ∧
    (readToNext specDeps 3 ⟨["", ""], 0⟩ [] =
      some (none, ⟨["", ""], 1⟩, [])) ∧
    (readToNext specDeps 3 ⟨[""], 0⟩ [] = some (none, ⟨[""], 1⟩, [])) ∧
    (readToNext specDeps 3 ⟨["", "x"], 0⟩ [] =
      some ((matchItem specDeps (⟨["", "x"], 0⟩ : Reader).next ["indented"]).1,
        (matchItem specDeps (⟨["", "x"], 0⟩ : Reader).next ["indented"]).2,
        [])) ∧
    (itemLoop specDeps 3 ulDef none ⟨["-"], ⟨[], 0⟩, []⟩ =
      some (none, ⟨["-"], ⟨[], 0⟩, [] ++ ["</li>"]⟩)) ∧
    (renderListLoop specDeps 7 ⟨["- a", "-", "a"], ulDef, "-"⟩
        ⟨["-"], ⟨["- a"], 0⟩, []⟩ =
      some (none, ⟨[], ⟨["- a"], 1⟩,
        ["<li>", "a\n", "</li>"] ++ ["</ul>"]⟩)) := by
  refine ⟨?_, ?_, ?_, ?_, ?_, ?_⟩
  · exact (c4_blank_lines_and_eof specDeps 2 ⟨[], 0⟩ []).1 rfl
  · exact (c4_blank_lines_and_eof specDeps 2 ⟨["", ""], 0⟩ []).2.1 rfl rfl
  · exact (c4_blank_lines_and_eof specDeps 2 ⟨[""], 0⟩ []).2.2.1 rfl rfl
  · exact (c4_blank_lines_and_eof specDeps 2 ⟨["", "x"], 0⟩ []).2.2.2.1 rfl
      (by decide) rfl
  · exact (c4_blank_lines_and_eof specDeps 2 ⟨[], 0⟩ []).2.2.2.2.1 ulDef
      ⟨["-"], ⟨[], 0⟩, []⟩
  · exact (c4_blank_lines_and_eof specDeps 6 ⟨[], 0⟩ []).2.2.2.2.2
      ⟨["- a", "-", "a"], ulDef, "-"⟩ ⟨["-"], ⟨["- a"], 0⟩, []⟩
      ⟨["-"], ⟨["- a"], 1⟩, ["<li>", "a\n", "</li>"]⟩ rfl

/-- C5: when the current line matches none of the three list patterns,
render returns false and leaves the whole state untouched: same ID
stack, same Reader (cursor position and line contents), same Writer. -/
theorem c5_no_match_frame (dep : Deps) (fuel : Nat) (s : LState)
    (line : String) :
    s.rd.cursor = some line →
    (∀ d ∈ defs, d.rmatch line = none) →
    render dep fuel s = some (.ok (false, s)) := by
  intro hc hnone
  unfold render
  rw [if_neg (by simp [eof_false_of_cursor hc])]
  have hmi : matchItem dep s.rd [] = (none, s.rd) := by
    unfold matchItem
    rw [hc]
    dsimp only
    rw [findMatch_eq_none hnone]
    rfl
  rw [hmi]

/-- C5 witness: a paragraph line with a populated state. -/
theorem c5_witness :
    render specDeps 3 ⟨["z"], ⟨["hello"], 0⟩, ["w0"]⟩ =
      some (.ok (false, ⟨["z"], ⟨["hello"], 0⟩, ["w0"]⟩)) :=
  c5_no_match_frame specDeps 3 ⟨["z"], ⟨["hello"], 0⟩, ["w0"]⟩ "hello" rfl
    (by intro d hd; rcases mem_defs hd with rfl | rfl | rfl <;> rfl)

/-- C6: a line that begins with a backslash and (with it) matches a list
pattern is rewritten in place without the backslash, the engine reports
no match and writes nothing, and (with the spec-modelled paragraph
fallback) the concrete example renders as a plain paragraph with no ul
element. -/
theorem c6_backslash_escape :
    (∀ (dep : Deps) (fuel : Nat) (s : LState) (line : String),
      s.rd.cursor = some line →
      headIs line '\\' = true →
      (∃ d ∈ defs, d.rmatch line ≠ none) →
      render dep fuel s =
        some (.ok (false, ⟨s.ids, s.rd.setCursor (line.drop 1), s.wr⟩))) ∧
    (render specDeps 9 ⟨[], ⟨["\\- not a list item"], 0⟩, []⟩ =
      some (.ok (false, ⟨[], ⟨["- not a list item"], 0⟩, []⟩)) ∧
     paragraphFallback specDeps ⟨["- not a list item"], 0⟩ [] =
      (⟨["- not a list item"], 1⟩, ["<p>- not a list item</p>"])) := by
  constructor
  · intro dep fuel s line hc hbs hex
    obtain ⟨⟨d0, m0⟩, hf⟩ := findMatch_isSome hex
    have hm0 : (m0[0]?).getD "" = line := by
      rw [exec_head (findMatch_mem hf) (findMatch_exec hf)]
      rfl
    unfold render
    rw [if_neg (by simp [eof_false_of_cursor hc])]
    have hmi : matchItem dep s.rd [] =
        (none, s.rd.setCursor (line.drop 1)) := by
      unfold matchItem
      rw [hc]
      dsimp only
      rw [hf]
      dsimp only
      rw [if_pos (show headIs ((m0[0]?).getD "") '\\' = true by rw [hm0]; exact hbs)]
    rw [hmi]
  · exact ⟨rfl, rfl⟩

/-- C6 witness: the concrete escaped line through the universal part. -/
theorem c6_witness :
    render specDeps 5 ⟨["q"], ⟨["\\* esc"], 0⟩, ["w"]⟩ =
      some (.ok (false, ⟨["q"],
        (⟨["\\* esc"], 0⟩ : Reader).setCursor ("\\* esc".drop 1), ["w"]⟩)) :=
  c6_backslash_escape.1 specDeps 5 ⟨["q"], ⟨["\\* esc"], 0⟩, ["w"]⟩ "\\* esc"
    rfl rfl ⟨ulDef, by simp [defs], by decide⟩

/-- C7: the attached-block arm hands the delimited-block renderer the
empty list-ID stack and discards the stack state the block renderer
leaves behind — two block renderers that agree on Reader/Writer effects
for an empty incoming stack drive the engine identically; the open-ID
stack after the arm equals the one before it; and rendering resumes with
list-item matching at the first non-blank line after the block. -/
theorem c7_attached_block_frame :
    (∀ dep1 dep2 : Deps, dep1.openMatchTest = dep2.openMatchTest →
      dep1.replaceInline = dep2.replaceInline →
      (∀ r w, (dep1.dbRender [] r w).2 = (dep2.dbRender [] r w).2) →
      ∀ fuel d s, renderAttached dep1 fuel d s = renderAttached dep2 fuel d s) ∧
    (∀ (dep : Deps) fuel d s ret s1,
      renderAttached dep fuel d s = some (ret, s1) → s1.ids = s.ids) ∧
    (∀ (dep : Deps) fuel d s,
      renderAttached dep (fuel + 1) d s =
        (let p := dep.dbRender [] s.rd s.wr
         let r2 := p.2.1.skipBlankLines
         if r2.eof then some (none, ⟨s.ids, r2, p.2.2 ++ [d.itemCloseTag]⟩)
         else
           itemLoop dep fuel d (matchItem dep r2 []).1
             ⟨s.ids, (matchItem dep r2 []).2, p.2.2⟩)) := by
  refine ⟨?_, ?_, ?_⟩
  · intro dep1 dep2 hom hri hdb fuel d s
    exact (dbFrame dep1 dep2 hom hri hdb fuel).2.2.2.2 d s
  · intro dep fuel d s ret s1 h
    exact (idsInv dep fuel).2.2.2.2 d s ret s1 h
  · intro dep fuel d s
    simp only [renderAttached]

/-- C7 witness: the concrete block renderer against one that reports a
garbage ID stack, and a concrete attached code block inside an item. -/
theorem c7_witness :
    (renderAttached specDeps 6 ulDef ⟨["-"], ⟨["-- c", "", "- b"], 0⟩, []⟩ =
      renderAttached
        { dbRender := fun ids r w => (["garbage"], (specDbRender ids r w).2),
          openMatchTest := specOpenMatchTest,
          replaceInline := specReplaceInline }
        6 ulDef ⟨["-"], ⟨["-- c", "", "- b"], 0⟩, []⟩) ∧
    (⟨["-"], ⟨["-- c", "", "- b"], 2⟩, ["-- c\n", "</li>"]⟩ : LState).ids =
      (⟨["-"], ⟨["-- c", "", "- b"], 0⟩, []⟩ : LState).ids := by
  constructor
  · exact c7_attached_block_frame.1 specDeps
      { dbRender := fun ids r w => (["garbage"], (specDbRender ids r w).2),
        openMatchTest := specOpenMatchTest,
        replaceInline := specReplaceInline }
      rfl rfl (fun r w => rfl) 6 ulDef ⟨["-"], ⟨["-- c", "", "- b"], 0⟩, []⟩
  · exact c7_attached_block_frame.2.1 specDeps 6 ulDef
      ⟨["-"], ⟨["-- c", "", "- b"], 0⟩, []⟩
      (some ⟨["- b", "-", "b"], ulDef, "-"⟩)
      ⟨["-"], ⟨["-- c", "", "- b"], 2⟩, ["-- c\n", "</li>"]⟩ rfl

/-- C8 counterexample: rendering the single line `Term:: Definition`
does not produce the exact string claimed — the matched third capture
group keeps its leading space and the item text its trailing newline. -/
theorem c8_counterexample :
    render specDeps 9 ⟨[], ⟨["Term:: Definition"], 0⟩, []⟩ =
      some (.ok (true, ⟨[], ⟨["Term:: Definition"], 1⟩,
        ["<dl>", "<dt>", "Term", "</dt>", "<dd>", " Definition\n", "</dd>",
         "</dl>"]⟩)) ∧
    String.join ["<dl>", "<dt>", "Term", "</dt>", "<dd>", " Definition\n",
        "</dd>", "</dl>"] ≠
      "<dl><dt>Term</dt><dd>Definition</dd></dl>" :=
  ⟨rfl, by decide⟩

/-- C8 (amended): rendering `Term:: Definition` produces exactly one
definition list — a dl element containing the inline-replaced term in
dt tags followed by the definition in dd tags — where the dd content is
the matched group-3 text (keeping its leading space) plus a newline:
the output is `<dl><dt>Term</dt><dd> Definition\n</dd></dl>`. -/
theorem c8_definition_list :
    render specDeps 9 ⟨[], ⟨["Term:: Definition"], 0⟩, []⟩ =
      some (.ok (true, ⟨[], ⟨["Term:: Definition"], 1⟩,
        ["<dl>", "<dt>", "Term", "</dt>", "<dd>", " Definition\n", "</dd>",
         "</dl>"]⟩)) ∧
    String.join ["<dl>", "<dt>", "Term", "</dt>", "<dd>", " Definition\n",
        "</dd>", "</dl>"] =
      "<dl><dt>Term</dt><dd> Definition\n</dd></dl>" ∧
    specReplaceInline "Term" = "Term" :=
  ⟨rfl, rfl, rfl⟩

/-- C9: calling render on an exhausted Reader throws `premature eof`,
and this is the only way render can throw — every returned value is
either that error (with the Reader at end of input) or an ordinary
boolean result. -/
theorem c9_premature_eof_throws :
    (∀ (dep : Deps) (fuel : Nat) (s : LState),
      s.rd.eof = true → render dep fuel s = some (.error "premature eof")) ∧
    (∀ (dep : Deps) (fuel : Nat) (s : LState) res,
      render dep fuel s = some res →
      (s.rd.eof = true ∧ res = .error "premature eof") ∨
      ∃ b s1, res = .ok (b, s1)) := by
  constructor
  · intro dep fuel s he
    unfold render
    rw [if_pos he]
  · intro dep fuel s res h
    unfold render at h
    split at h
    · rename_i he
      cases h
      exact .inl ⟨he, rfl⟩
    · right
      rcases hmi : matchItem dep s.rd [] with ⟨m, r1⟩
      rw [hmi] at h
      rcases m with _ | m
      · dsimp only at h
        cases h
        exact ⟨false, _, rfl⟩
      · rcases m with st | _
        · dsimp only at h
          rcases hR : renderList dep fuel st ⟨[], r1, s.wr⟩ with _ | ⟨ret0, s2⟩
          · rw [hR] at h
            exact absurd h (by simp)
          · rw [hR] at h
            dsimp only at h
            cases h
            exact ⟨true, _, rfl⟩
        · dsimp only at h
          cases h
          exact ⟨false, _, rfl⟩

/-- C9 witness: the throw at end of input, and a returned value. -/
theorem c9_witness :
    render specDeps 3 ⟨[], ⟨[], 0⟩, []⟩ = some (.error "premature eof") ∧
    (((⟨[], ⟨["hello"], 0⟩, []⟩ : LState).rd.eof = true ∧
        (Except.ok (false, (⟨[], ⟨["hello"], 0⟩, []⟩ : LState)) :
          Except String (Bool × LState)) = .error "premature eof") ∨
      ∃ b s1, (Except.ok (false, (⟨[], ⟨["hello"], 0⟩, []⟩ : LState)) :
          Except String (Bool × LState)) = .ok (b, s1)) :=
  ⟨c9_premature_eof_throws.1 specDeps 3 ⟨[], ⟨[], 0⟩, []⟩ rfl,
   c9_premature_eof_throws.2 specDeps 3 ⟨[], ⟨["hello"], 0⟩, []⟩ _ rfl⟩

/-- C10: every return of `renderListItem` pairs the single item open tag
written at entry with exactly one item close tag: the delta it appends
to the writer has equal item-open and item-close counts and ends in this
item's close tag, on every return path. -/
theorem c10_item_tag_balance :
    ∀ fuel st s ret s1, st.defn ∈ defs →
      renderListItem specDeps fuel st s = some (ret, s1) →
      ∃ dl, s1.wr = s.wr ++ dl ∧ ciOpen dl = cIC dl ∧
        dl.getLast? = some st.defn.itemCloseTag := by
  intro fuel st s ret s1 hd h
  obtain ⟨_, dl, hw, _, hc2, hl⟩ :=
    (wrInv specDeps specDepsOk fuel).2.2.1 st s ret s1 hd h
  exact ⟨dl, hw, hc2, hl⟩

/-- C10 witness: a concrete single item ending at end of input. -/
theorem c10_witness :
    ∃ dl, (⟨["-"], ⟨["- a"], 1⟩, ["<li>", "a\n", "</li>"]⟩ : LState).wr =
        ([] : Writer) ++ dl ∧ ciOpen dl = cIC dl ∧
      dl.getLast? = some (⟨["- a", "-", "a"], ulDef, "-"⟩ : ItemState).defn.itemCloseTag :=
  c10_item_tag_balance 6 ⟨["- a", "-", "a"], ulDef, "-"⟩
    ⟨["-"], ⟨["- a"], 0⟩, []⟩ none
    ⟨["-"], ⟨["- a"], 1⟩, ["<li>", "a\n", "</li>"]⟩ (by simp [defs]) rfl

end Rimu
